import Mathlib

/-!
Verification of the chord recognition engine of `chord_detector.py`
(class `ChordDetector`): the template library `CHORD_TEMPLATES`, the frame
matcher `_match_chord`, the segmentation loop of `detect_chords`, and the
driver's result assembly, shallowly embedded over `ℚ` and `ℝ`.

Chroma frames and templates are 12-element vectors of exact rationals;
the cosine score of `_match_chord` lives in `ℝ` because it divides by a
product of Euclidean norms (`np.linalg.norm`), which are square roots.
-/

namespace ChordDetector

/-! ## Rounding -/

/-- Python's builtin `round` on an exact rational: round half to even. -/
def rnd (q : ℚ) : ℤ :=
  if q - ⌊q⌋ < 1/2 then ⌊q⌋
  else if 1/2 < q - ⌊q⌋ then ⌊q⌋ + 1
  else if ⌊q⌋ % 2 = 0 then ⌊q⌋ else ⌊q⌋ + 1

/-- Embedding of `round(x, 3)` from the source: round to 3 decimal places. -/
def round3 (q : ℚ) : ℚ := (rnd (q * 1000) : ℚ) / 1000

/-- Millisecond grid: rationals representable with 3 decimal places, on
which `round3` is the identity. -/
def Ms (q : ℚ) : Prop := ∃ n : ℤ, q = n / 1000

/-! ## Template library -/

/-- The rational `1e-8` epsilon guard used throughout the source. -/
def epsQ : ℚ := 1/100000000

/-- The class attribute `CHORD_TEMPLATES`, in its source (dict insertion)
order: 12 major then 12 minor raw 0/1 pitch-class profiles. -/
def CHORD_TEMPLATES : List (String × List ℚ) :=
  [("C",   [1, 0, 0, 0, 1, 0, 0, 1, 0, 0, 0, 0]),
   ("C#",  [0, 1, 0, 0, 0, 1, 0, 0, 1, 0, 0, 0]),
   ("D",   [0, 0, 1, 0, 0, 0, 1, 0, 0, 1, 0, 0]),
   ("D#",  [0, 0, 0, 1, 0, 0, 0, 1, 0, 0, 1, 0]),
   ("E",   [0, 0, 0, 0, 1, 0, 0, 0, 1, 0, 0, 1]),
   ("F",   [1, 0, 0, 0, 0, 1, 0, 0, 0, 1, 0, 0]),
   ("F#",  [0, 1, 0, 0, 0, 0, 1, 0, 0, 0, 1, 0]),
   ("G",   [0, 0, 1, 0, 0, 0, 0, 1, 0, 0, 0, 1]),
   ("G#",  [1, 0, 0, 1, 0, 0, 0, 0, 1, 0, 0, 0]),
   ("A",   [0, 1, 0, 0, 1, 0, 0, 0, 0, 1, 0, 0]),
   ("A#",  [0, 0, 1, 0, 0, 1, 0, 0, 0, 0, 1, 0]),
   ("B",   [0, 0, 0, 1, 0, 0, 1, 0, 0, 0, 0, 1]),
   ("Cm",  [1, 0, 0, 1, 0, 0, 0, 1, 0, 0, 0, 0]),
   ("C#m", [0, 1, 0, 0, 1, 0, 0, 0, 1, 0, 0, 0]),
   ("Dm",  [0, 0, 1, 0, 0, 1, 0, 0, 0, 1, 0, 0]),
   ("D#m", [0, 0, 0, 1, 0, 0, 1, 0, 0, 0, 1, 0]),
   ("Em",  [0, 0, 0, 0, 1, 0, 0, 1, 0, 0, 0, 1]),
   ("Fm",  [1, 0, 0, 0, 0, 1, 0, 0, 1, 0, 0, 0]),
   ("F#m", [0, 1, 0, 0, 0, 0, 1, 0, 0, 1, 0, 0]),
   ("Gm",  [0, 0, 1, 0, 0, 0, 0, 1, 0, 0, 1, 0]),
   ("G#m", [0, 0, 0, 1, 0, 0, 0, 0, 1, 0, 0, 1]),
   ("Am",  [1, 0, 0, 0, 1, 0, 0, 0, 0, 1, 0, 0]),
   ("A#m", [0, 1, 0, 0, 0, 1, 0, 0, 0, 0, 1, 0]),
   ("Bm",  [0, 0, 1, 0, 0, 0, 1, 0, 0, 0, 0, 1])]

/-- View a raw 12-entry template list as a pitch-class vector. -/
def tvec (t : List ℚ) : Fin 12 → ℚ := fun i => t.getD i 0

/-- Sum of the entries of a pitch-class vector (`np.sum`). -/
def vsum (v : Fin 12 → ℚ) : ℚ := ∑ i, v i

/-- Dot product of two pitch-class vectors (`np.dot`). -/
def dot (u w : Fin 12 → ℚ) : ℚ := ∑ i, u i * w i

/-- Sum of squared entries; `np.linalg.norm` is its square root. -/
def sumSq (v : Fin 12 → ℚ) : ℚ := ∑ i, v i * v i

/-- Per-template normalization inside `_match_chord`:
`template_array / (np.sum(template_array) + 1e-8)`. -/
def normT (t : List ℚ) : Fin 12 → ℚ := fun i => tvec t i / (vsum (tvec t) + epsQ)

/-! ## Frame matcher -/

/-- Cosine similarity from `_match_chord`:
`np.dot(u, w) / (np.linalg.norm(u) * np.linalg.norm(w) + 1e-8)`. -/
noncomputable def cosSim (u w : Fin 12 → ℚ) : ℝ :=
  ((dot u w : ℚ) : ℝ) /
    (Real.sqrt ((sumSq u : ℚ) : ℝ) * Real.sqrt ((sumSq w : ℚ) : ℝ) + ((epsQ : ℚ) : ℝ))

open Classical in
/-- Loop body of `_match_chord`: keep the incumbent unless the current
template's score is strictly greater. -/
noncomputable def stepR (v : Fin 12 → ℚ) (best : String × ℝ) (t : String × List ℚ) :
    String × ℝ :=
  if cosSim v (normT t.2) > best.2 then (t.1, cosSim v (normT t.2)) else best

/-- Embedding of `_match_chord`: fold the score comparison over the
template dict starting from `best_chord = "N"`, `best_score = 0`. -/
noncomputable def matchChord (v : Fin 12 → ℚ) : String × ℝ :=
  CHORD_TEMPLATES.foldl (stepR v) ("N", 0)

/-- Rational shadow of `stepR` that compares raw dot products instead of
cosine scores; equivalent to `stepR` because every normalized template has
the same Euclidean norm (`matchChord_eq_matchD`). -/
def stepD (v : Fin 12 → ℚ) (best : String × ℚ) (t : String × List ℚ) :
    String × ℚ :=
  if dot v (normT t.2) > best.2 then (t.1, dot v (normT t.2)) else best

/-- Rational shadow of `matchChord` (same label, score scaled by the
common positive denominator). -/
def matchD (v : Fin 12 → ℚ) : String × ℚ := CHORD_TEMPLATES.foldl (stepD v) ("N", 0)

/-- Frame normalization in `detect_chords`:
`chroma_frame / (np.sum(chroma_frame) + 1e-8)`. -/
def l1n (v : Fin 12 → ℚ) : Fin 12 → ℚ := fun i => v i / (vsum v + epsQ)

/-- The per-frame matching pipeline of `detect_chords`: L1-ish
normalization followed by `_match_chord`. -/
noncomputable def matchFrame (v : Fin 12 → ℚ) : String × ℝ := matchChord (l1n v)

/-- Common value of `sumSq (normT t)` over all 24 templates: each raw
profile has exactly three entries equal to 1. -/
def tns : ℚ := 3 / (3 + epsQ)^2

/-- Common cosine denominator of all 24 templates against the vector `v`. -/
noncomputable def denomR (v : Fin 12 → ℚ) : ℝ :=
  Real.sqrt ((sumSq v : ℚ) : ℝ) * Real.sqrt ((tns : ℚ) : ℝ) + ((epsQ : ℚ) : ℝ)

/-! ## Segmenter -/

/-- A per-frame matching result fed to the segmentation loop of
`detect_chords`: frame time, matched chord label, match confidence. -/
structure Frame where
  time : ℚ
  chord : String
  conf : ℚ
deriving DecidableEq, Repr

/-- One emitted chord segment: the dict with keys `time`, `chord`,
`confidence`, `duration` appended to `chords` in `detect_chords`. -/
structure Segment where
  time : ℚ
  chord : String
  confidence : ℚ
  duration : ℚ
deriving DecidableEq, Repr

/-- Loop state of the segmentation loop in `detect_chords`: the `chords`
list built so far, `chord_start_time`, `prev_chord`, and the current value
of the loop variable `confidence` (reassigned on every iteration, read
again only after the loop when the final chord is emitted). -/
structure SegState where
  acc : List Segment
  start : ℚ
  prev : Option String
  lastConf : ℚ
deriving DecidableEq, Repr

/-- Body of the per-frame loop of `detect_chords` (lines 94-116 of the
source): if `confidence >= self.min_confidence` and the label differs from
`prev_chord`, close the active segment (when one exists) and start a new
one; otherwise only the loop variable `confidence` is updated. -/
def step (mc : ℚ) (s : SegState) (f : Frame) : SegState :=
  if mc ≤ f.conf then
    if some f.chord = s.prev then
      { s with lastConf := f.conf }
    else
      { acc := s.acc ++ (match s.prev with
          | some p => [⟨s.start, p, round3 f.conf, round3 (f.time - s.start)⟩]
          | none => []),
        start := f.time, prev := some f.chord, lastConf := f.conf }
  else
    { s with lastConf := f.conf }

/-- Post-loop emission in `detect_chords` (lines 118-125): if a segment is
still active, emit it with the last value of the loop variable
`confidence` and duration `duration - chord_start_time`. -/
def finalize (dur : ℚ) (s : SegState) : List Segment :=
  match s.prev with
  | some p => s.acc ++ [⟨s.start, p, round3 s.lastConf, round3 (dur - s.start)⟩]
  | none => s.acc

/-- The segmentation pass of `detect_chords`: fold the loop body over the
frame stream starting from `prev_chord = None`, `chord_start_time = 0`,
then emit the final active segment. -/
def detectSegs (frames : List Frame) (dur mc : ℚ) : List Segment :=
  finalize dur (frames.foldl (step mc) ⟨[], 0, none, 0⟩)

/-! ## Pipeline driver -/

/-- Input to the driver as seen past the external collaborators: either
the loaded audio's frame stream with its duration and sample rate, or the
error message of a lower-layer failure caught by the `except` block. -/
structure Extraction where
  frames : List Frame
  duration : ℚ
  sample_rate : ℕ
deriving DecidableEq, Repr

/-- The result dict built by `detect_chords`. Fields that some branch of
the source omits from the dict are `Option`s: `none` models the key being
absent from the returned dict. -/
structure DetectResult where
  success : Bool
  chords : List Segment
  duration : Option ℚ
  sample_rate : Option ℕ
  error : Option String
deriving DecidableEq, Repr

/-- Result assembly of `detect_chords` (lines 129-142): the success branch
returns `success`, `chords`, `duration`, `sample_rate`; the `except`
branch returns `success = False`, `error = str(e)`, `chords = []` and
nothing else. -/
def detect_chords (mc : ℚ) (inp : Except String Extraction) : DetectResult :=
  match inp with
  | .ok ex =>
      { success := true, chords := detectSegs ex.frames ex.duration mc,
        duration := some ex.duration, sample_rate := some ex.sample_rate,
        error := none }
  | .error e =>
      { success := false, chords := [], duration := none,
        sample_rate := none, error := some e }

/-! ## Spec-side definitions (for refinement comparisons) -/

/-- Note names in pitch-class order, following the spec's data model. -/
def NOTE_NAMES : List String :=
  ["C", "C#", "D", "D#", "E", "F"] ++ ["F#", "G", "G#", "A", "A#", "B"]

/-- Triad profile as described by the spec: ones exactly at the root, the
third (`root + third`) and the perfect fifth (`root + 7`), mod 12. -/
def triadProfile (r third : ℕ) : List ℚ :=
  (List.range 12).map
    (fun i => if i = r % 12 ∨ i = (r + third) % 12 ∨ i = (r + 7) % 12 then 1 else 0)

/-- The template library as described by the spec: 12 major triads
(major third = 4 semitones) then 12 minor triads (minor third = 3). -/
def specTemplates : List (String × List ℚ) :=
  (List.range 12).map (fun r => (NOTE_NAMES.getD r "", triadProfile r 4))
    ++ (List.range 12).map (fun r => (NOTE_NAMES.getD r "" ++ "m", triadProfile r 3))

/-- Invariants claimed for emitted segment lists: contiguity, strictly
increasing start times, strictly positive durations. -/
def ChainOK (l : List Segment) : Prop :=
  List.Chain' (fun a b => a.time + a.duration = b.time) l
    ∧ List.Chain' (fun a b => a.time < b.time) l
    ∧ ∀ x ∈ l, 0 < x.duration

/-- The emitted list, if nonempty, ends exactly at time `t` and started
strictly before `t`. -/
def EndsAt (l : List Segment) (t : ℚ) : Prop :=
  ∀ x ∈ l.getLast?, x.time + x.duration = t ∧ x.time < t

/-- Invariant carried by the segmentation loop state. -/
def Pred (dur : ℚ) (s : SegState) : Prop :=
  ChainOK s.acc ∧ (s.prev = none → s.acc = [])
    ∧ ∀ p, s.prev = some p → Ms s.start ∧ s.start < dur ∧ EndsAt s.acc s.start

/-! ## Rounding lemmas -/

theorem rnd_intCast (n : ℤ) : rnd (n : ℚ) = n := by
  simp [rnd]

theorem round3_Ms {q : ℚ} (h : Ms q) : round3 q = q := by
  obtain ⟨n, rfl⟩ := h
  rw [round3, div_mul_cancel₀ _ (by norm_num : (1000 : ℚ) ≠ 0), rnd_intCast]

theorem Ms.sub {a b : ℚ} (ha : Ms a) (hb : Ms b) : Ms (a - b) := by
  obtain ⟨n, rfl⟩ := ha
  obtain ⟨m, rfl⟩ := hb
  exact ⟨n - m, by push_cast; ring⟩

/-! ## Segmentation step lemmas -/

/-- Below-threshold frames only update the loop variable `confidence`. -/
theorem step_low {mc : ℚ} (s : SegState) {f : Frame} (h : f.conf < mc) :
    step mc s f = { s with lastConf := f.conf } := by
  rw [step, if_neg (not_le.mpr h)]

/-- A qualifying frame whose label equals the active label leaves the
state unchanged apart from the loop variable `confidence`. -/
theorem step_same {mc : ℚ} {s : SegState} {f : Frame} (h1 : mc ≤ f.conf)
    (h2 : s.prev = some f.chord) :
    step mc s f = { s with lastConf := f.conf } := by
  rw [step, if_pos h1, if_pos h2.symm]

/-- A qualifying frame arriving with no active segment starts one. -/
theorem step_start {mc : ℚ} {s : SegState} {f : Frame} (h1 : mc ≤ f.conf)
    (h2 : s.prev = none) :
    step mc s f
      = { s with start := f.time, prev := some f.chord, lastConf := f.conf } := by
  rw [step, if_pos h1, if_neg (by simp [h2])]
  simp [h2]

/-- A qualifying frame with a label differing from the active one closes
the active segment and starts a new one. -/
theorem step_close {mc : ℚ} {s : SegState} {f : Frame} {p : String}
    (h1 : mc ≤ f.conf) (h2 : s.prev = some p) (h3 : f.chord ≠ p) :
    step mc s f
      = ⟨s.acc ++ [⟨s.start, p, round3 f.conf, round3 (f.time - s.start)⟩],
          f.time, some f.chord, f.conf⟩ := by
  rw [step, if_pos h1, if_neg (by simp [h2, h3])]
  simp [h2]

/-- After any qualifying frame the active label is that frame's label. -/
theorem step_prev_qualify {mc : ℚ} {s : SegState} {f : Frame} (h : mc ≤ f.conf) :
    (step mc s f).prev = some f.chord := by
  rw [step, if_pos h]
  split
  · next h2 => exact h2.symm
  · rfl

/-! ## Segment-list invariant machinery -/

theorem chainOK_nil : ChainOK [] := ⟨List.chain'_nil, List.chain'_nil, by simp⟩

theorem chainOK_concat {l : List Segment} {c : Segment} (h : ChainOK l)
    (hlink : EndsAt l c.time) (hdur : 0 < c.duration) : ChainOK (l ++ [c]) := by
  obtain ⟨h1, h2, h3⟩ := h
  refine ⟨?_, ?_, ?_⟩
  · rw [List.chain'_append]
    refine ⟨h1, List.chain'_singleton _, fun x hx y hy => ?_⟩
    simp only [List.head?_cons, Option.mem_some_iff] at hy
    subst hy
    exact (hlink x hx).1
  · rw [List.chain'_append]
    refine ⟨h2, List.chain'_singleton _, fun x hx y hy => ?_⟩
    simp only [List.head?_cons, Option.mem_some_iff] at hy
    subst hy
    exact (hlink x hx).2
  · intro x hx
    rcases List.mem_append.mp hx with h | h
    · exact h3 x h
    · simp only [List.mem_singleton] at h
      subst h
      exact hdur

theorem endsAt_concat {l : List Segment} {c : Segment} {u : ℚ}
    (h1 : c.time + c.duration = u) (h2 : c.time < u) : EndsAt (l ++ [c]) u := by
  intro x hx
  rw [List.getLast?_concat, Option.mem_some_iff] at hx
  subst hx
  exact ⟨h1, h2⟩

/-- One step of the segmentation loop preserves the loop invariant, and
afterwards any active segment started no later than the frame's time. -/
theorem step_pred (mc : ℚ) {dur : ℚ} {s : SegState} {f : Frame}
    (hs : Pred dur s) (hlo : ∀ p, s.prev = some p → s.start < f.time)
    (hft : f.time < dur) (hgrid : Ms f.time) :
    Pred dur (step mc s f)
      ∧ ∀ p, (step mc s f).prev = some p → (step mc s f).start ≤ f.time := by
  obtain ⟨hc, hn, ha⟩ := hs
  by_cases h1 : mc ≤ f.conf
  · cases hp : s.prev with
    | none =>
        rw [step_start h1 hp]
        have hacc : s.acc = [] := hn hp
        refine ⟨⟨hc, by simp, fun p' hp' => ⟨hgrid, hft, ?_⟩⟩, fun p' _ => le_refl _⟩
        rw [hacc]
        intro x hx
        simp at hx
    | some p =>
        by_cases h2 : f.chord = p
        · rw [step_same h1 (by rw [hp, h2])]
          refine ⟨⟨hc, by simp [hp], fun p' hp' => ha p' hp'⟩,
            fun p' _ => le_of_lt (hlo p hp)⟩
        · rw [step_close h1 hp h2]
          obtain ⟨hms, _, hend⟩ := ha p hp
          have hlt := hlo p hp
          have hrd : round3 (f.time - s.start) = f.time - s.start :=
            round3_Ms (hgrid.sub hms)
          refine ⟨⟨?_, by simp, fun p' _ => ⟨hgrid, hft, ?_⟩⟩, fun p' _ => le_refl _⟩
          · refine chainOK_concat hc hend ?_
            show 0 < round3 (f.time - s.start)
            rw [hrd]
            exact sub_pos.mpr hlt
          · refine endsAt_concat ?_ hlt
            show s.start + round3 (f.time - s.start) = f.time
            rw [hrd]
            ring
  · rw [step_low s (not_le.mp h1)]
    exact ⟨⟨hc, hn, ha⟩, fun p hp' => le_of_lt (hlo p hp')⟩

/-- Folding the segmentation loop over a well-formed frame stream
preserves the loop invariant. -/
theorem fold_pred (mc : ℚ) {dur : ℚ} : ∀ (frames : List Frame) (s : SegState),
    Pred dur s →
    (∀ p, s.prev = some p → ∀ f ∈ frames, s.start < f.time) →
    (∀ f ∈ frames, f.time < dur ∧ Ms f.time) →
    List.Pairwise (fun a b => a.time < b.time) frames →
    Pred dur (List.foldl (step mc) s frames)
  | [], _, hs, _, _, _ => hs
  | f :: rest, s, hs, hlo, hbd, hpw => by
      simp only [List.foldl_cons]
      have hf := hbd f (List.mem_cons_self f rest)
      obtain ⟨hs', hle'⟩ :=
        step_pred mc hs (fun p hp => hlo p hp f (List.mem_cons_self f rest))
          hf.1 hf.2
      obtain ⟨hhead, htail⟩ := List.pairwise_cons.mp hpw
      refine fold_pred mc rest _ hs' ?_ (fun g hg => hbd g (List.mem_cons_of_mem _ hg)) htail
      intro p hp g hg
      exact lt_of_le_of_lt (hle' p hp) (hhead g hg)

theorem chainLt_pairwise {l : List Segment}
    (h : List.Chain' (fun a b => a.time < b.time) l) :
    List.Pairwise (fun a b => a.time < b.time) l := by
  haveI : IsTrans Segment (fun a b => a.time < b.time) :=
    ⟨fun a b c hab hbc => lt_trans hab hbc⟩
  exact List.chain'_iff_pairwise.mp h

/-- The finalize step turns the loop invariant into the segment-list
invariants, given the track duration lies on the millisecond grid. -/
theorem finalize_chainOK (mc : ℚ) {dur : ℚ} {frames : List Frame}
    (hpw : List.Pairwise (fun a b => a.time < b.time) frames)
    (hbd : ∀ f ∈ frames, f.time < dur)
    (hgr : ∀ f ∈ frames, Ms f.time) (hdur : Ms dur) :
    ChainOK (detectSegs frames dur mc) := by
  have h0 : Pred dur ⟨[], 0, none, 0⟩ :=
    ⟨chainOK_nil, fun _ => rfl, fun p hp => by simp at hp⟩
  have hfold := fold_pred mc frames _ h0 (by intro p hp; simp at hp)
    (fun f hf => ⟨hbd f hf, hgr f hf⟩) hpw
  obtain ⟨hc, hn, ha⟩ := hfold
  rw [detectSegs]
  cases hp : (List.foldl (step mc) ⟨[], 0, none, 0⟩ frames).prev with
  | none =>
      rw [finalize, hp]
      exact hc
  | some p =>
      rw [finalize, hp]
      obtain ⟨hms, hsd, hend⟩ := ha p hp
      have hrd : round3 (dur - (List.foldl (step mc) ⟨[], 0, none, 0⟩ frames).start)
          = dur - (List.foldl (step mc) ⟨[], 0, none, 0⟩ frames).start :=
        round3_Ms (hdur.sub hms)
      refine chainOK_concat hc hend ?_
      show 0 < round3 _
      rw [hrd]
      exact sub_pos.mpr hsd

/-! ## Claim C2 -/

/-- C2 counterexample: with frame times allowed to reach the track
duration, the final emitted segment has duration 0 (not strictly
positive); and with frame times off the millisecond grid, rounding of the
emitted duration breaks exact contiguity. Both streams have strictly
increasing times, each at most the track duration, as the claim demands. -/
theorem C2_cex :
    (¬ ∀ x ∈ detectSegs [⟨0, "C", 9/10⟩, ⟨2, "G", 9/10⟩] 2 (3/10), 0 < x.duration)
      ∧ ¬ List.Chain' (fun a b => a.time + a.duration = b.time)
          (detectSegs [⟨0, "C", 9/10⟩, ⟨4/10000, "G", 9/10⟩] 1 (3/10)) := by
  have hA : detectSegs [⟨0, "C", 9/10⟩, ⟨2, "G", 9/10⟩] 2 (3/10)
      = [⟨0, "C", 9/10, 2⟩, ⟨2, "G", 9/10, 0⟩] := by
    have h1 : step (3/10) ⟨[], 0, none, 0⟩ ⟨0, "C", 9/10⟩
        = (⟨[], 0, some "C", 9/10⟩ : SegState) := step_start (by norm_num) rfl
    have h2 : step (3/10) ⟨[], 0, some "C", 9/10⟩ ⟨2, "G", 9/10⟩
        = (⟨[⟨0, "C", round3 (9/10), round3 (2 - 0)⟩], 2, some "G", 9/10⟩ : SegState) :=
      step_close (by norm_num) rfl (by simp)
    simp only [detectSegs, List.foldl_cons, List.foldl_nil, h1, h2, finalize]
    norm_num [round3, rnd]
  have hB : detectSegs [⟨0, "C", 9/10⟩, ⟨4/10000, "G", 9/10⟩] 1 (3/10)
      = [⟨0, "C", 9/10, 0⟩, ⟨4/10000, "G", 9/10, 1⟩] := by
    have h1 : step (3/10) ⟨[], 0, none, 0⟩ ⟨0, "C", 9/10⟩
        = (⟨[], 0, some "C", 9/10⟩ : SegState) := step_start (by norm_num) rfl
    have h2 : step (3/10) ⟨[], 0, some "C", 9/10⟩ ⟨4/10000, "G", 9/10⟩
        = (⟨[⟨0, "C", round3 (9/10), round3 (4/10000 - 0)⟩], 4/10000, some "G", 9/10⟩ :
            SegState) :=
      step_close (by norm_num) rfl (by simp)
    simp only [detectSegs, List.foldl_cons, List.foldl_nil, h1, h2, finalize]
    norm_num [round3, rnd]
  constructor
  · intro h
    have hx := h ⟨2, "G", 9/10, 0⟩ (by rw [hA]; simp)
    norm_num at hx
  · intro h
    rw [hB] at h
    have hx := (List.chain'_cons.mp h).1
    norm_num at hx

/-- C2 (amended): for frame streams with strictly increasing times that
are strictly below the track duration and lie (with the duration) on the
millisecond grid, the emitted segments are ordered by start time
ascending, contiguous, and of strictly positive duration. -/
theorem C2_segment_invariants (frames : List Frame) (dur mc : ℚ)
    (hpw : List.Pairwise (fun a b => a.time < b.time) frames)
    (hbd : ∀ f ∈ frames, f.time < dur)
    (hgr : ∀ f ∈ frames, Ms f.time) (hdur : Ms dur) :
    List.Pairwise (fun a b => a.time < b.time) (detectSegs frames dur mc)
      ∧ List.Chain' (fun a b => a.time + a.duration = b.time) (detectSegs frames dur mc)
      ∧ ∀ x ∈ detectSegs frames dur mc, 0 < x.duration := by
  obtain ⟨h1, h2, h3⟩ := finalize_chainOK mc hpw hbd hgr hdur
  exact ⟨chainLt_pairwise h2, h1, h3⟩

/-- Witness for C2 (amended) on a concrete two-frame stream. -/
theorem C2_segment_invariants_witness :
    List.Pairwise (fun a b => a.time < b.time)
        (detectSegs [⟨0, "C", 9/10⟩, ⟨1, "G", 8/10⟩] 2 (3/10))
      ∧ List.Chain' (fun a b => a.time + a.duration = b.time)
          (detectSegs [⟨0, "C", 9/10⟩, ⟨1, "G", 8/10⟩] 2 (3/10))
      ∧ ∀ x ∈ detectSegs [⟨0, "C", 9/10⟩, ⟨1, "G", 8/10⟩] 2 (3/10), 0 < x.duration :=
  C2_segment_invariants [⟨0, "C", 9/10⟩, ⟨1, "G", 8/10⟩] 2 (3/10)
    (by constructor
        · intro b hb
          simp only [List.mem_singleton] at hb
          subst hb
          norm_num
        · simp)
    (by intro f hf
        rcases List.mem_cons.mp hf with rfl | hf
        · norm_num
        · simp only [List.mem_singleton] at hf
          subst hf
          norm_num)
    (by intro f hf
        rcases List.mem_cons.mp hf with rfl | hf
        · exact ⟨0, by norm_num⟩
        · simp only [List.mem_singleton] at hf
          subst hf
          exact ⟨1000, by norm_num⟩)
    ⟨2000, by norm_num⟩

/-! ## Claim C3 -/

/-- C3 counterexample: on a failing input, the returned dict does not
carry all fields of the §6 output structure — the `duration` and
`sample_rate` keys are absent from the failure branch's dict. -/
theorem C3_cex :
    (detect_chords (3/10) (Except.error "boom")).duration = none
      ∧ (detect_chords (3/10) (Except.error "boom")).sample_rate = none :=
  ⟨rfl, rfl⟩

/-- C3 (amended): on any lower-layer failure, `detect_chords` returns,
without propagating the exception, a result with `success = false`, the
error cause as a string, and an empty segment list; the `duration` and
`sample_rate` fields are absent from that failure result. -/
theorem C3_failure_result (mc : ℚ) (e : String) :
    detect_chords mc (Except.error e)
      = { success := false, chords := [], duration := none,
          sample_rate := none, error := some e } := rfl

/-! ## Claim C4 -/

/-- C4: on the synthetic stream at times 0, 0.5, 1, 1.5 with labels
C, C, G, G, confidences 0.9, 0.8, 0.85, 0.9, threshold 0.3 and duration 2,
exactly the two expected segments are emitted, in order. -/
theorem C4_end_to_end :
    detectSegs [⟨0, "C", 9/10⟩, ⟨1/2, "C", 8/10⟩, ⟨1, "G", 85/100⟩, ⟨3/2, "G", 9/10⟩]
        2 (3/10)
      = [⟨0, "C", 85/100, 1⟩, ⟨1, "G", 9/10, 1⟩] := by
  have h1 : step (3/10) ⟨[], 0, none, 0⟩ ⟨0, "C", 9/10⟩
      = (⟨[], 0, some "C", 9/10⟩ : SegState) := step_start (by norm_num) rfl
  have h2 : step (3/10) ⟨[], 0, some "C", 9/10⟩ ⟨1/2, "C", 8/10⟩
      = (⟨[], 0, some "C", 8/10⟩ : SegState) := step_same (by norm_num) rfl
  have h3 : step (3/10) ⟨[], 0, some "C", 8/10⟩ ⟨1, "G", 85/100⟩
      = (⟨[⟨0, "C", round3 (85/100), round3 (1 - 0)⟩], 1, some "G", 85/100⟩ : SegState) :=
    step_close (by norm_num) rfl (by simp)
  have h4 : step (3/10) ⟨[⟨0, "C", round3 (85/100), round3 (1 - 0)⟩], 1, some "G", 85/100⟩
        ⟨3/2, "G", 9/10⟩
      = (⟨[⟨0, "C", round3 (85/100), round3 (1 - 0)⟩], 1, some "G", 9/10⟩ : SegState) :=
    step_same (by norm_num) rfl
  simp only [detectSegs, List.foldl_cons, List.foldl_nil, h1, h2, h3, h4, finalize]
  norm_num [round3, rnd]

/-! ## Claim C5 -/

/-- C5: a single below-threshold frame inserted between two qualifying
frames of the same label changes nothing — the emitted segment list is
the same as for the stream without that frame. -/
theorem C5_dropped_frame (pre post : List Frame) (a f b : Frame) (dur mc : ℚ)
    (ha : mc ≤ a.conf) (hb : mc ≤ b.conf) (hf : f.conf < mc)
    (hab : a.chord = b.chord) :
    detectSegs (pre ++ a :: f :: b :: post) dur mc
      = detectSegs (pre ++ a :: b :: post) dur mc := by
  unfold detectSegs
  rw [List.foldl_append, List.foldl_append]
  congr 1
  simp only [List.foldl_cons]
  congr 1
  generalize List.foldl (step mc) ⟨[], 0, none, 0⟩ pre = s
  have hprev : (step mc s a).prev = some a.chord := step_prev_qualify ha
  rw [step_low _ hf]
  rw [step_same hb (show ({ step mc s a with lastConf := f.conf } : SegState).prev
    = some b.chord by rw [show ({ step mc s a with lastConf := f.conf } : SegState).prev
      = (step mc s a).prev from rfl, hprev, hab])]
  rw [step_same hb (by rw [hprev, hab])]

/-- Witness for C5 at a concrete three-frame stream: the low-confidence
middle frame does not split the C segment. -/
theorem C5_dropped_frame_witness :
    detectSegs [⟨0, "C", 9/10⟩, ⟨1/2, "C", 1/10⟩, ⟨1, "C", 9/10⟩] 2 (3/10)
        = detectSegs [⟨0, "C", 9/10⟩, ⟨1, "C", 9/10⟩] 2 (3/10)
      ∧ detectSegs [⟨0, "C", 9/10⟩, ⟨1, "C", 9/10⟩] 2 (3/10) = [⟨0, "C", 9/10, 2⟩] := by
  constructor
  · exact C5_dropped_frame [] [] ⟨0, "C", 9/10⟩ ⟨1/2, "C", 1/10⟩ ⟨1, "C", 9/10⟩ 2 (3/10)
      (by norm_num) (by norm_num) (by norm_num) rfl
  · have h1 : step (3/10) ⟨[], 0, none, 0⟩ ⟨0, "C", 9/10⟩
        = (⟨[], 0, some "C", 9/10⟩ : SegState) := step_start (by norm_num) rfl
    have h2 : step (3/10) ⟨[], 0, some "C", 9/10⟩ ⟨1, "C", 9/10⟩
        = (⟨[], 0, some "C", 9/10⟩ : SegState) := step_same (by norm_num) rfl
    simp only [detectSegs, List.foldl_cons, List.foldl_nil, h1, h2, finalize]
    norm_num [round3, rnd]

/-! ## Claim C6 -/

/-- C6 counterexample: at a close the emitted duration is the rounded
difference, not the exact one — with the closing frame at time 0.0004 the
emitted first segment has duration 0, not 0.0004 − 0. -/
theorem C6_cex :
    (detectSegs [⟨0, "C", 9/10⟩, ⟨4/10000, "G", 9/10⟩] 1 (3/10)).head?
        = some ⟨0, "C", 9/10, 0⟩
      ∧ (0 : ℚ) ≠ 4/10000 - 0 := by
  refine ⟨?_, by norm_num⟩
  have h1 : step (3/10) ⟨[], 0, none, 0⟩ ⟨0, "C", 9/10⟩
      = (⟨[], 0, some "C", 9/10⟩ : SegState) := step_start (by norm_num) rfl
  have h2 : step (3/10) ⟨[], 0, some "C", 9/10⟩ ⟨4/10000, "G", 9/10⟩
      = (⟨[⟨0, "C", round3 (9/10), round3 (4/10000 - 0)⟩], 4/10000, some "G", 9/10⟩ :
          SegState) :=
    step_close (by norm_num) rfl (by simp)
  simp only [detectSegs, List.foldl_cons, List.foldl_nil, h1, h2, finalize]
  norm_num [round3, rnd]

/-- C6 (amended): when a segment is active and a qualifying frame with a
different label arrives, the active segment is emitted with the new
frame's confidence rounded to 3 decimals and with the difference
`frame.time − segment.start` rounded to 3 decimals as duration, and a new
segment starts at the new frame's time with the new label. -/
theorem C6_close_behavior (mc : ℚ) (s : SegState) (f : Frame) (p : String)
    (h1 : s.prev = some p) (h2 : mc ≤ f.conf) (h3 : f.chord ≠ p) :
    step mc s f
      = ⟨s.acc ++ [⟨s.start, p, round3 f.conf, round3 (f.time - s.start)⟩],
          f.time, some f.chord, f.conf⟩ :=
  step_close h2 h1 h3

/-- Witness for C6 (amended) at a concrete state and frame. -/
theorem C6_close_behavior_witness :
    step (3/10) ⟨[], 0, some "C", 9/10⟩ ⟨1, "G", 8/10⟩
      = ⟨[⟨0, "C", 4/5, 1⟩], 1, some "G", 8/10⟩ := by
  rw [C6_close_behavior (3/10) ⟨[], 0, some "C", 9/10⟩ ⟨1, "G", 8/10⟩ "C" rfl
    (by norm_num) (by simp)]
  norm_num [round3, rnd]

/-! ## Claim C10 -/

/-- C10: the final segment is emitted with the confidence of the last
frame iterated even when that frame was dropped for being below the
threshold — here the closing confidence 0.1 is strictly below the 0.3
threshold although the only contributing frame qualified with 0.9. -/
theorem C10_final_confidence_quirk :
    detectSegs [⟨0, "C", 9/10⟩, ⟨1, "C", 1/10⟩] 2 (3/10) = [⟨0, "C", 1/10, 2⟩]
      ∧ (1/10 : ℚ) < 3/10 ∧ (3/10 : ℚ) ≤ 9/10 := by
  refine ⟨?_, by norm_num, by norm_num⟩
  have h1 : step (3/10) ⟨[], 0, none, 0⟩ ⟨0, "C", 9/10⟩
      = (⟨[], 0, some "C", 9/10⟩ : SegState) := step_start (by norm_num) rfl
  have h2 : step (3/10) ⟨[], 0, some "C", 9/10⟩ ⟨1, "C", 1/10⟩
      = (⟨[], 0, some "C", 1/10⟩ : SegState) := step_low _ (by norm_num)
  simp only [detectSegs, List.foldl_cons, List.foldl_nil, h1, h2, finalize]
  norm_num [round3, rnd]

/-! ## Matcher evaluation lemmas -/

theorem epsQ_pos : (0 : ℚ) < epsQ := by norm_num [epsQ]

theorem epsR_pos : (0 : ℝ) < ((epsQ : ℚ) : ℝ) := by exact_mod_cast epsQ_pos

theorem dot12 (a0 a1 a2 a3 a4 a5 a6 a7 a8 a9 a10 a11
    b0 b1 b2 b3 b4 b5 b6 b7 b8 b9 b10 b11 : ℚ) :
    dot (tvec [a0, a1, a2, a3, a4, a5, a6, a7, a8, a9, a10, a11])
        (tvec [b0, b1, b2, b3, b4, b5, b6, b7, b8, b9, b10, b11])
      = a0*b0 + a1*b1 + a2*b2 + a3*b3 + a4*b4 + a5*b5 + a6*b6 + a7*b7
        + a8*b8 + a9*b9 + a10*b10 + a11*b11 := by
  simp [dot, tvec, Fin.sum_univ_succ]
  ring

theorem vsum12 (a0 a1 a2 a3 a4 a5 a6 a7 a8 a9 a10 a11 : ℚ) :
    vsum (tvec [a0, a1, a2, a3, a4, a5, a6, a7, a8, a9, a10, a11])
      = a0 + a1 + a2 + a3 + a4 + a5 + a6 + a7 + a8 + a9 + a10 + a11 := by
  simp [vsum, tvec, Fin.sum_univ_succ]
  ring

theorem sumSq12 (a0 a1 a2 a3 a4 a5 a6 a7 a8 a9 a10 a11 : ℚ) :
    sumSq (tvec [a0, a1, a2, a3, a4, a5, a6, a7, a8, a9, a10, a11])
      = a0*a0 + a1*a1 + a2*a2 + a3*a3 + a4*a4 + a5*a5 + a6*a6 + a7*a7
        + a8*a8 + a9*a9 + a10*a10 + a11*a11 := by
  simp [sumSq, tvec, Fin.sum_univ_succ]
  ring

/-- Pull the template normalization constant out of the dot product. -/
theorem dot_normT (v : Fin 12 → ℚ) (t : List ℚ) :
    dot v (normT t) = dot v (tvec t) / (vsum (tvec t) + epsQ) := by
  unfold dot normT
  rw [div_eq_mul_inv (∑ i, v i * tvec t i)]
  rw [Finset.sum_mul]
  exact Finset.sum_congr rfl (fun i _ => by rw [div_eq_mul_inv]; ring)

theorem vsum_raw : ∀ t ∈ CHORD_TEMPLATES, vsum (tvec t.2) = 3 := by
  intro t ht
  fin_cases ht <;> norm_num [vsum12]

theorem sumSq_raw : ∀ t ∈ CHORD_TEMPLATES, sumSq (tvec t.2) = 3 := by
  intro t ht
  fin_cases ht <;> norm_num [sumSq12]

theorem normT_sumSq {t : List ℚ} (h3 : vsum (tvec t) = 3) (hsq : sumSq (tvec t) = 3) :
    sumSq (normT t) = tns := by
  unfold sumSq at hsq
  unfold sumSq normT tns
  rw [h3]
  simp only [div_mul_div_comm]
  rw [← Finset.sum_div, hsq, pow_two]

theorem normT_vsum {t : List ℚ} (h3 : vsum (tvec t) = 3) :
    vsum (normT t) = 3 / (3 + epsQ) := by
  unfold vsum normT
  rw [h3, ← Finset.sum_div]
  rw [show (∑ i, tvec t i) = (3 : ℚ) from h3]

theorem templates_normT_sumSq : ∀ t ∈ CHORD_TEMPLATES, sumSq (normT t.2) = tns :=
  fun t ht => normT_sumSq (vsum_raw t ht) (sumSq_raw t ht)

theorem sumSq_nonneg (v : Fin 12 → ℚ) : 0 ≤ sumSq v :=
  Finset.sum_nonneg (fun _ _ => mul_self_nonneg _)

theorem denomR_pos (v : Fin 12 → ℚ) : 0 < denomR v :=
  add_pos_of_nonneg_of_pos
    (mul_nonneg (Real.sqrt_nonneg _) (Real.sqrt_nonneg _)) epsR_pos

/-- The real matcher step agrees with its rational shadow whenever the
template's normalized profile has the common squared norm `tns`. -/
theorem stepR_corr {v : Fin 12 → ℚ} {t : String × List ℚ}
    (ht : sumSq (normT t.2) = tns) (b : String × ℚ) :
    stepR v (b.1, (b.2 : ℝ) / denomR v) t
      = ((stepD v b t).1, ((stepD v b t).2 : ℝ) / denomR v) := by
  have hD : 0 < denomR v := denomR_pos v
  have hcos : cosSim v (normT t.2) = ((dot v (normT t.2) : ℚ) : ℝ) / denomR v := by
    unfold cosSim denomR
    rw [ht]
  simp only [stepR, stepD, hcos, gt_iff_lt, div_lt_div_iff_of_pos_right hD,
    Rat.cast_lt]
  by_cases hc : b.2 < dot v (normT t.2)
  · simp [hc]
  · simp [hc]

theorem foldR_corr (v : Fin 12 → ℚ) :
    ∀ (ts : List (String × List ℚ)), (∀ t ∈ ts, sumSq (normT t.2) = tns) →
    ∀ (b : String × ℚ),
      ts.foldl (stepR v) (b.1, (b.2 : ℝ) / denomR v)
        = ((ts.foldl (stepD v) b).1, ((ts.foldl (stepD v) b).2 : ℝ) / denomR v)
  | [], _, _ => rfl
  | t :: rest, hts, b => by
      simp only [List.foldl_cons]
      rw [stepR_corr (hts t (List.mem_cons_self _ _)) b]
      exact foldR_corr v rest (fun t' ht' => hts t' (List.mem_cons_of_mem _ ht'))
        (stepD v b t)

/-- The embedded `_match_chord` returns the rational shadow's label and
its best dot product scaled by the common cosine denominator. -/
theorem matchChord_eq_matchD (v : Fin 12 → ℚ) :
    matchChord v = ((matchD v).1, ((matchD v).2 : ℝ) / denomR v) := by
  unfold matchChord matchD
  rw [show (("N", (0 : ℝ)) : String × ℝ)
    = (("N" : String), (((0 : ℚ) : ℝ)) / denomR v) by norm_num]
  exact foldR_corr v CHORD_TEMPLATES templates_normT_sumSq ("N", 0)

/-! ## Fold facts for the rational shadow -/

theorem stepD_snd_le (v : Fin 12 → ℚ) (b : String × ℚ) (t : String × List ℚ) :
    b.2 ≤ (stepD v b t).2 := by
  unfold stepD
  split
  · next h => exact le_of_lt h
  · exact le_refl _

theorem stepD_snd_ge (v : Fin 12 → ℚ) (b : String × ℚ) (t : String × List ℚ) :
    dot v (normT t.2) ≤ (stepD v b t).2 := by
  unfold stepD
  split
  · exact le_refl _
  · next h => exact le_of_not_lt h

theorem foldD_snd_le (v : Fin 12 → ℚ) :
    ∀ (ts : List (String × List ℚ)) (b : String × ℚ),
      b.2 ≤ (ts.foldl (stepD v) b).2
  | [], _ => le_refl _
  | t :: ts, b => le_trans (stepD_snd_le v b t) (foldD_snd_le v ts _)

theorem foldD_snd_ge (v : Fin 12 → ℚ) (ts : List (String × List ℚ)) :
    ∀ (b : String × ℚ) (t : String × List ℚ), t ∈ ts →
      dot v (normT t.2) ≤ (ts.foldl (stepD v) b).2 := by
  induction ts with
  | nil => intro b t ht; simp at ht
  | cons hd tl ih =>
      intro b t ht
      simp only [List.foldl_cons]
      rcases List.mem_cons.mp ht with rfl | ht'
      · exact le_trans (stepD_snd_ge v b t) (foldD_snd_le v tl _)
      · exact ih _ t ht'

theorem foldD_eq_or_mem (v : Fin 12 → ℚ) (ts : List (String × List ℚ)) :
    ∀ b : String × ℚ,
      ts.foldl (stepD v) b = b ∨ (ts.foldl (stepD v) b).1 ∈ ts.map Prod.fst := by
  induction ts with
  | nil => intro b; exact Or.inl rfl
  | cons hd tl ih =>
      intro b
      simp only [List.foldl_cons]
      rcases ih (stepD v b hd) with h | h
      · rw [h]
        unfold stepD
        split
        · right
          simp
        · left
          rfl
      · right
        rw [List.map_cons]
        exact List.mem_cons_of_mem _ h

theorem dot_zero (w : Fin 12 → ℚ) : dot (fun _ => 0) w = 0 := by
  simp [dot]

theorem matchD_zero : matchD (fun _ => 0) = ("N", 0) := by
  unfold matchD CHORD_TEMPLATES
  simp [stepD, dot_zero]

/-! ## Scaling lemmas -/

theorem dot_smul (c : ℚ) (v w : Fin 12 → ℚ) :
    dot (fun i => c * v i) w = c * dot v w := by
  unfold dot
  rw [Finset.mul_sum]
  exact Finset.sum_congr rfl (fun i _ => by ring)

theorem vsum_smul (c : ℚ) (v : Fin 12 → ℚ) :
    vsum (fun i => c * v i) = c * vsum v := by
  unfold vsum
  rw [Finset.mul_sum]

theorem sumSq_smul (c : ℚ) (v : Fin 12 → ℚ) :
    sumSq (fun i => c * v i) = c^2 * sumSq v := by
  unfold sumSq
  rw [Finset.mul_sum]
  exact Finset.sum_congr rfl (fun i _ => by ring)

theorem stepD_smul {c : ℚ} (hc : 0 < c) (v : Fin 12 → ℚ) (b : String × ℚ)
    (t : String × List ℚ) :
    stepD (fun i => c * v i) (b.1, c * b.2) t
      = ((stepD v b t).1, c * (stepD v b t).2) := by
  simp only [stepD, dot_smul, gt_iff_lt, mul_lt_mul_left hc]
  by_cases hd : b.2 < dot v (normT t.2)
  · simp [hd]
  · simp [hd]

theorem foldD_smul {c : ℚ} (hc : 0 < c) (v : Fin 12 → ℚ) :
    ∀ (ts : List (String × List ℚ)) (b : String × ℚ),
      ts.foldl (stepD (fun i => c * v i)) (b.1, c * b.2)
        = ((ts.foldl (stepD v) b).1, c * (ts.foldl (stepD v) b).2)
  | [], _ => rfl
  | t :: rest, b => by
      simp only [List.foldl_cons]
      rw [stepD_smul hc v b t]
      exact foldD_smul hc v rest (stepD v b t)

theorem matchD_smul {c : ℚ} (hc : 0 < c) (v : Fin 12 → ℚ) :
    matchD (fun i => c * v i) = ((matchD v).1, c * (matchD v).2) := by
  have h := foldD_smul hc v CHORD_TEMPLATES ("N", 0)
  simp only [mul_zero] at h
  exact h

theorem l1n_smul {k : ℚ} {v : Fin 12 → ℚ} (hk : 0 < k) (hS : 0 ≤ vsum v) :
    l1n (fun i => k * v i)
      = fun i => (k * (vsum v + epsQ) / (k * vsum v + epsQ)) * l1n v i := by
  have h1 : (0 : ℚ) < vsum v + epsQ := add_pos_of_nonneg_of_pos hS epsQ_pos
  have h2 : (0 : ℚ) < k * vsum v + epsQ :=
    add_pos_of_nonneg_of_pos (mul_nonneg hk.le hS) epsQ_pos
  have hne1 : vsum v + epsQ ≠ 0 := ne_of_gt h1
  have hne2 : k * vsum v + epsQ ≠ 0 := ne_of_gt h2
  funext i
  unfold l1n
  rw [vsum_smul]
  field_simp
  ring

/-! ## Square-root collapses -/

theorem sqrtQ_collapse {a r : ℚ} (ha : 0 ≤ a) (hr : 0 ≤ r) (h : a * tns = r * r) :
    Real.sqrt ((a : ℚ) : ℝ) * Real.sqrt ((tns : ℚ) : ℝ) = ((r : ℚ) : ℝ) := by
  rw [← Real.sqrt_mul (by exact_mod_cast ha : (0 : ℝ) ≤ ((a : ℚ) : ℝ))]
  have hcast : ((a : ℚ) : ℝ) * ((tns : ℚ) : ℝ) = ((r : ℚ) : ℝ) * ((r : ℚ) : ℝ) := by
    exact_mod_cast congrArg (fun q : ℚ => ((q : ℚ) : ℝ)) h
  rw [hcast]
  exact Real.sqrt_mul_self (by exact_mod_cast hr)

theorem denomR_eval {v : Fin 12 → ℚ} {r : ℚ} (hr : 0 ≤ r)
    (h : sumSq v * tns = r * r) :
    denomR v = ((r + epsQ : ℚ) : ℝ) := by
  unfold denomR
  rw [sqrtQ_collapse (sumSq_nonneg v) hr h]
  push_cast
  ring

/-- Every pitch class is a chord tone of some template. -/
theorem cover (i : Fin 12) :
    ∃ t ∈ CHORD_TEMPLATES,
      tvec t.2 i = 1 ∧ (∀ j, 0 ≤ tvec t.2 j) ∧ vsum (tvec t.2) = 3 := by
  fin_cases i
  · exact ⟨("C", [1, 0, 0, 0, 1, 0, 0, 1, 0, 0, 0, 0]), by simp [CHORD_TEMPLATES], rfl,
      fun j => by fin_cases j <;> norm_num [tvec], by norm_num [vsum12]⟩
  · exact ⟨("C#", [0, 1, 0, 0, 0, 1, 0, 0, 1, 0, 0, 0]), by simp [CHORD_TEMPLATES], rfl,
      fun j => by fin_cases j <;> norm_num [tvec], by norm_num [vsum12]⟩
  · exact ⟨("D", [0, 0, 1, 0, 0, 0, 1, 0, 0, 1, 0, 0]), by simp [CHORD_TEMPLATES], rfl,
      fun j => by fin_cases j <;> norm_num [tvec], by norm_num [vsum12]⟩
  · exact ⟨("D#", [0, 0, 0, 1, 0, 0, 0, 1, 0, 0, 1, 0]), by simp [CHORD_TEMPLATES], rfl,
      fun j => by fin_cases j <;> norm_num [tvec], by norm_num [vsum12]⟩
  · exact ⟨("E", [0, 0, 0, 0, 1, 0, 0, 0, 1, 0, 0, 1]), by simp [CHORD_TEMPLATES], rfl,
      fun j => by fin_cases j <;> norm_num [tvec], by norm_num [vsum12]⟩
  · exact ⟨("F", [1, 0, 0, 0, 0, 1, 0, 0, 0, 1, 0, 0]), by simp [CHORD_TEMPLATES], rfl,
      fun j => by fin_cases j <;> norm_num [tvec], by norm_num [vsum12]⟩
  · exact ⟨("F#", [0, 1, 0, 0, 0, 0, 1, 0, 0, 0, 1, 0]), by simp [CHORD_TEMPLATES], rfl,
      fun j => by fin_cases j <;> norm_num [tvec], by norm_num [vsum12]⟩
  · exact ⟨("G", [0, 0, 1, 0, 0, 0, 0, 1, 0, 0, 0, 1]), by simp [CHORD_TEMPLATES], rfl,
      fun j => by fin_cases j <;> norm_num [tvec], by norm_num [vsum12]⟩
  · exact ⟨("G#", [1, 0, 0, 1, 0, 0, 0, 0, 1, 0, 0, 0]), by simp [CHORD_TEMPLATES], rfl,
      fun j => by fin_cases j <;> norm_num [tvec], by norm_num [vsum12]⟩
  · exact ⟨("A", [0, 1, 0, 0, 1, 0, 0, 0, 0, 1, 0, 0]), by simp [CHORD_TEMPLATES], rfl,
      fun j => by fin_cases j <;> norm_num [tvec], by norm_num [vsum12]⟩
  · exact ⟨("A#", [0, 0, 1, 0, 0, 1, 0, 0, 0, 0, 1, 0]), by simp [CHORD_TEMPLATES], rfl,
      fun j => by fin_cases j <;> norm_num [tvec], by norm_num [vsum12]⟩
  · exact ⟨("B", [0, 0, 0, 1, 0, 0, 1, 0, 0, 0, 0, 1]), by simp [CHORD_TEMPLATES], rfl,
      fun j => by fin_cases j <;> norm_num [tvec], by norm_num [vsum12]⟩

/-- A nonnegative chroma vector with a positive entry has a strictly
positive dot product against some normalized template. -/
theorem dot_pos_of_pos {v : Fin 12 → ℚ} (hv : ∀ i, 0 ≤ v i) {i : Fin 12}
    (hi : 0 < v i) :
    ∃ t ∈ CHORD_TEMPLATES, 0 < dot v (normT t.2) := by
  obtain ⟨t, ht, h1, hnn, h3⟩ := cover i
  refine ⟨t, ht, ?_⟩
  unfold dot normT
  rw [h3]
  apply Finset.sum_pos'
  · intro j _
    exact mul_nonneg (hv j) (div_nonneg (hnn j) (by norm_num [epsQ]))
  · refine ⟨i, Finset.mem_univ i, ?_⟩
    rw [h1]
    exact mul_pos hi (by norm_num [epsQ])

set_option maxHeartbeats 4000000 in
/-- Running the rational shadow of the matcher on a template's own raw
profile returns that template's name with best dot `3 / (3 + 1e-8)`. -/
theorem matchD_self : ∀ t ∈ CHORD_TEMPLATES, matchD (tvec t.2) = (t.1, 3 / (3 + epsQ)) := by
  intro t ht
  fin_cases ht <;>
    · simp only [matchD, CHORD_TEMPLATES, List.foldl_cons, List.foldl_nil, stepD,
        dot_normT, vsum12, dot12]
      norm_num [epsQ]

/-! ## Claim C1 -/

/-- C1 counterexample: on the all-zero chroma vector the matcher returns
the sentinel label "N" with score 0, and "N" is not one of the 24
triad-template names — so the matcher does not always return a label
drawn from the 24 templates. -/
theorem C1_cex :
    matchChord (fun _ => 0) = ("N", 0)
      ∧ "N" ∉ CHORD_TEMPLATES.map Prod.fst := by
  constructor
  · rw [matchChord_eq_matchD, matchD_zero]
    simp
  · simp [CHORD_TEMPLATES]

/-- C1 (amended): the matcher is total on 12-element vectors — no
division error is possible — and returns a nonnegative score; on a
nonnegative vector with at least one positive entry the label is one of
the 24 template names, while on the all-zero vector it returns exactly
the sentinel pair ("N", 0). -/
theorem C1_matcher_total (v : Fin 12 → ℚ) (hv : ∀ i, 0 ≤ v i) :
    0 ≤ (matchChord v).2
      ∧ ((∃ i, 0 < v i) → (matchChord v).1 ∈ CHORD_TEMPLATES.map Prod.fst)
      ∧ matchChord (fun _ => 0) = ("N", 0) := by
  refine ⟨?_, ?_, ?_⟩
  · rw [matchChord_eq_matchD]
    dsimp only
    apply div_nonneg _ (le_of_lt (denomR_pos v))
    have h0 : (0 : ℚ) ≤ (matchD v).2 := foldD_snd_le v CHORD_TEMPLATES ("N", 0)
    exact_mod_cast h0
  · rintro ⟨i, hi⟩
    obtain ⟨t, ht, hdot⟩ := dot_pos_of_pos hv hi
    rw [matchChord_eq_matchD]
    dsimp only
    rcases foldD_eq_or_mem v CHORD_TEMPLATES ("N", 0) with h | h
    · exfalso
      have h2 := foldD_snd_ge v CHORD_TEMPLATES ("N", 0) t ht
      rw [h] at h2
      have h3 : dot v (normT t.2) ≤ 0 := h2
      linarith
    · exact h
  · rw [matchChord_eq_matchD, matchD_zero]
    simp

/-- Witness for C1 (amended) at a concrete one-hot vector. -/
theorem C1_matcher_total_witness :
    0 ≤ (matchChord (tvec [1, 0, 0, 0, 0, 0, 0, 0, 0, 0, 0, 0])).2
      ∧ (matchChord (tvec [1, 0, 0, 0, 0, 0, 0, 0, 0, 0, 0, 0])).1
          ∈ CHORD_TEMPLATES.map Prod.fst := by
  obtain ⟨h1, h2, _⟩ := C1_matcher_total (tvec [1, 0, 0, 0, 0, 0, 0, 0, 0, 0, 0, 0])
    (fun j => by fin_cases j <;> norm_num [tvec])
  exact ⟨h1, h2 ⟨0, by norm_num [tvec]⟩⟩

/-! ## Claim C7 -/

/-- C7 counterexample: the returned score is not invariant under scaling
the input chroma vector by 2 — the epsilon guards in the two
normalizations shift the cosine denominator, so the full (label, score)
result differs between v and 2·v at the C-major profile. -/
theorem C7_cex :
    matchFrame (tvec [1, 0, 0, 0, 1, 0, 0, 1, 0, 0, 0, 0])
      ≠ matchFrame (fun i => 2 * tvec [1, 0, 0, 0, 1, 0, 0, 1, 0, 0, 0, 0] i) := by
  have hv3 : vsum (tvec [1, 0, 0, 0, 1, 0, 0, 1, 0, 0, 0, 0]) = 3 := by
    norm_num [vsum12]
  have hsq : sumSq (tvec [1, 0, 0, 0, 1, 0, 0, 1, 0, 0, 0, 0]) = 3 := by
    norm_num [sumSq12]
  have hm : matchD (tvec [1, 0, 0, 0, 1, 0, 0, 1, 0, 0, 0, 0]) = ("C", 3 / (3 + epsQ)) :=
    matchD_self ("C", [1, 0, 0, 0, 1, 0, 0, 1, 0, 0, 0, 0]) (by simp [CHORD_TEMPLATES])
  have hc1 : (0 : ℚ) < 1 / (3 + epsQ) := by norm_num [epsQ]
  have hc2 : (0 : ℚ) < 2 / (6 + epsQ) := by norm_num [epsQ]
  have hl1 : l1n (tvec [1, 0, 0, 0, 1, 0, 0, 1, 0, 0, 0, 0])
      = fun i => (1 / (3 + epsQ)) * tvec [1, 0, 0, 0, 1, 0, 0, 1, 0, 0, 0, 0] i := by
    funext i
    unfold l1n
    rw [hv3]
    ring
  have hv6 : vsum (fun i => 2 * tvec [1, 0, 0, 0, 1, 0, 0, 1, 0, 0, 0, 0] i) = 6 := by
    rw [vsum_smul, hv3]
    norm_num
  have hl2 : l1n (fun i => 2 * tvec [1, 0, 0, 0, 1, 0, 0, 1, 0, 0, 0, 0] i)
      = fun i => (2 / (6 + epsQ)) * tvec [1, 0, 0, 0, 1, 0, 0, 1, 0, 0, 0, 0] i := by
    funext i
    unfold l1n
    rw [show vsum (fun i => 2 * tvec [1, 0, 0, 0, 1, 0, 0, 1, 0, 0, 0, 0] i) = 6 from hv6]
    ring
  have hm1 : matchD (l1n (tvec [1, 0, 0, 0, 1, 0, 0, 1, 0, 0, 0, 0]))
      = ("C", (1 / (3 + epsQ)) * (3 / (3 + epsQ))) := by
    rw [hl1, matchD_smul hc1, hm]
  have hm2 : matchD (l1n (fun i => 2 * tvec [1, 0, 0, 0, 1, 0, 0, 1, 0, 0, 0, 0] i))
      = ("C", (2 / (6 + epsQ)) * (3 / (3 + epsQ))) := by
    rw [hl2, matchD_smul hc2, hm]
  have hss1 : sumSq (l1n (tvec [1, 0, 0, 0, 1, 0, 0, 1, 0, 0, 0, 0])) = tns := by
    rw [hl1, sumSq_smul, hsq]
    norm_num [tns, epsQ]
  have hss2 : sumSq (l1n (fun i => 2 * tvec [1, 0, 0, 0, 1, 0, 0, 1, 0, 0, 0, 0] i))
      = (2 / (6 + epsQ))^2 * 3 := by
    rw [hl2, sumSq_smul, hsq]
  have hd1 : denomR (l1n (tvec [1, 0, 0, 0, 1, 0, 0, 1, 0, 0, 0, 0]))
      = ((tns + epsQ : ℚ) : ℝ) :=
    denomR_eval (by norm_num [tns, epsQ]) (by rw [hss1])
  have hd2 : denomR (l1n (fun i => 2 * tvec [1, 0, 0, 0, 1, 0, 0, 1, 0, 0, 0, 0] i))
      = ((6 / ((6 + epsQ) * (3 + epsQ)) + epsQ : ℚ) : ℝ) :=
    denomR_eval (by norm_num [epsQ]) (by rw [hss2]; norm_num [tns, epsQ])
  intro h
  unfold matchFrame at h
  rw [matchChord_eq_matchD, matchChord_eq_matchD, hm1, hm2, hd1, hd2] at h
  have h2 := congrArg Prod.snd h
  dsimp only at h2
  rw [← Rat.cast_div, ← Rat.cast_div, Rat.cast_inj] at h2
  rw [show ((1 / (3 + epsQ)) * (3 / (3 + epsQ)) : ℚ) = tns by norm_num [tns, epsQ]] at h2
  norm_num [tns, epsQ] at h2

/-- C7 (amended): the returned chord label is invariant under positive
scaling of a nonnegative chroma vector. -/
theorem C7_label_scale_invariant (v : Fin 12 → ℚ) (k : ℚ)
    (hv : ∀ i, 0 ≤ v i) (hk : 0 < k) :
    (matchFrame (fun i => k * v i)).1 = (matchFrame v).1 := by
  have hS : 0 ≤ vsum v := by
    unfold vsum
    exact Finset.sum_nonneg (fun i _ => hv i)
  have h1 : (0 : ℚ) < vsum v + epsQ := add_pos_of_nonneg_of_pos hS epsQ_pos
  have h2 : (0 : ℚ) < k * vsum v + epsQ :=
    add_pos_of_nonneg_of_pos (mul_nonneg hk.le hS) epsQ_pos
  have hc : 0 < k * (vsum v + epsQ) / (k * vsum v + epsQ) :=
    div_pos (mul_pos hk h1) h2
  unfold matchFrame
  rw [matchChord_eq_matchD, matchChord_eq_matchD]
  dsimp only
  rw [l1n_smul hk hS, matchD_smul hc]

/-- Witness for C7 (amended) at the C-major profile and k = 2. -/
theorem C7_label_scale_invariant_witness :
    (matchFrame (fun i => 2 * tvec [1, 0, 0, 0, 1, 0, 0, 1, 0, 0, 0, 0] i)).1
      = (matchFrame (tvec [1, 0, 0, 0, 1, 0, 0, 1, 0, 0, 0, 0])).1 :=
  C7_label_scale_invariant (tvec [1, 0, 0, 0, 1, 0, 0, 1, 0, 0, 0, 0]) 2
    (fun j => by fin_cases j <;> norm_num [tvec]) (by norm_num)

/-! ## Claim C8 -/

/-- C8: on each template's own raw 0/1 profile, the matcher returns that
template's name with confidence within 1e-7 of 1. -/
theorem C8_template_self_match :
    ∀ t ∈ CHORD_TEMPLATES, (matchChord (tvec t.2)).1 = t.1
      ∧ |(matchChord (tvec t.2)).2 - 1| < 1/10000000 := by
  intro t ht
  have hm := matchD_self t ht
  have hsq : sumSq (tvec t.2) = 3 := sumSq_raw t ht
  have hd : denomR (tvec t.2) = ((3 / (3 + epsQ) + epsQ : ℚ) : ℝ) :=
    denomR_eval (by norm_num [epsQ]) (by rw [hsq]; norm_num [tns, epsQ])
  rw [matchChord_eq_matchD, hm, hd]
  dsimp only
  refine ⟨rfl, ?_⟩
  have hq : |(3 / (3 + epsQ)) / (3 / (3 + epsQ) + epsQ) - 1| < (1/10000000 : ℚ) := by
    rw [abs_lt]
    constructor <;> norm_num [epsQ]
  rw [show ((1 : ℝ)/10000000) = ((1/10000000 : ℚ) : ℝ) by norm_num]
  exact_mod_cast hq

/-- Witness for C8 at the C-major template. -/
theorem C8_template_self_match_witness :
    (matchChord (tvec [1, 0, 0, 0, 1, 0, 0, 1, 0, 0, 0, 0])).1 = "C"
      ∧ |(matchChord (tvec [1, 0, 0, 0, 1, 0, 0, 1, 0, 0, 0, 0])).2 - 1| < 1/10000000 :=
  C8_template_self_match ("C", [1, 0, 0, 0, 1, 0, 0, 1, 0, 0, 0, 0])
    (by simp [CHORD_TEMPLATES])

/-! ## Claim C9 -/

/-- C9: the template library holds exactly 24 templates which coincide
with the spec's 12 major and 12 minor triad profiles (ones exactly at
root, third and perfect fifth); each raw profile has exactly 3 entries
equal to 1; each normalized profile sums to 1 within 1e-6. -/
theorem C9_template_library :
    CHORD_TEMPLATES.length = 24
      ∧ CHORD_TEMPLATES = specTemplates
      ∧ (∀ t ∈ CHORD_TEMPLATES, t.2.count 1 = 3)
      ∧ ∀ t ∈ CHORD_TEMPLATES, |vsum (normT t.2) - 1| ≤ 1/1000000 := by
  refine ⟨rfl, ?_, ?_, ?_⟩
  · rfl
  · intro t ht
    fin_cases ht <;> rfl
  · intro t ht
    have h3 := vsum_raw t ht
    rw [normT_vsum h3, abs_le]
    constructor <;> norm_num [epsQ]

/-- Witness for C9 at the C-major template. -/
theorem C9_template_library_witness :
    ([1, 0, 0, 0, 1, 0, 0, 1, 0, 0, 0, 0] : List ℚ).count 1 = 3
      ∧ |vsum (normT [1, 0, 0, 0, 1, 0, 0, 1, 0, 0, 0, 0]) - 1| ≤ 1/1000000 :=
  ⟨C9_template_library.2.2.1 ("C", [1, 0, 0, 0, 1, 0, 0, 1, 0, 0, 0, 0])
      (by simp [CHORD_TEMPLATES]),
    C9_template_library.2.2.2 ("C", [1, 0, 0, 0, 1, 0, 0, 1, 0, 0, 0, 0])
      (by simp [CHORD_TEMPLATES])⟩

end ChordDetector
